import Mathlib

/-!
Verification of the VT-100 escape-sequence lexer (package vt100).

The Go source keeps the lexer state as a chain of state functions
(ground, intermediateChar, afterLeftSquareBracket, afterLeftParen,
afterRightParen, escPound, escapeDigit) driven by the run loop, which
masks every input byte to 7 bits, appends it to the captured sequence
buffer when one is active, and dispatches to the current state function.
We embed this shallowly: the mutable lexer fields that the state
functions read and write (the current state function, the captured
sequence buffer, the pending parameter list) become an explicit state
record, and one step of the run loop becomes a pure function from state
and input byte to emitted tokens and successor state.
-/

namespace VT100

/-- ASCII restriction of Go's unicode.IsDigit: bytes 48-57.  Every byte
reaching a state function has been masked below 128, where the unicode
predicate coincides with this range. -/
def isDigitB (c : Nat) : Bool := 48 ≤ c && c ≤ 57

/-- ASCII restriction of Go's unicode.IsLetter: bytes 65-90 and 97-122. -/
def isLetterB (c : Nat) : Bool := (65 ≤ c && c ≤ 90) || (97 ≤ c && c ≤ 122)

/-- ASCII restriction of Go's unicode.IsPrint: bytes 32-126. -/
def isPrintB (c : Nat) : Bool := 32 ≤ c && c ≤ 126

/-- ASCII restriction of Go's unicode.IsSpace: 9-13 and 32. -/
def isSpaceB (c : Nat) : Bool := (9 ≤ c && c ≤ 13) || c == 32

/-- TokVal is a Go int; the named constants below are negative, raw
characters occupy 0-127. -/
abbrev TokVal := Int

/-- Bytes of a Go string literal, for the body comparisons in interpTerm. -/
def str (s : String) : List Nat := s.toList.map Char.toNat

def Align : TokVal := -1

def AltKeypad : TokVal := -2

def Blink : TokVal := -3

def Bold : TokVal := -4

def ClearBOL : TokVal := -5

def ClearBOS : TokVal := -6

def ClearEOL : TokVal := -7

def ClearEOS : TokVal := -8

def ClearLine : TokVal := -9

def ClearScreen : TokVal := -10

def CursorDn : TokVal := -11

def CursorHome : TokVal := -12

def CursorLf : TokVal := -13

def CursorPos : TokVal := -14

def CursorRt : TokVal := -15

def CursorUp : TokVal := -16

def DevStat : TokVal := -17

def DhBot : TokVal := -18

def DhTop : TokVal := -19

def Dwsh : TokVal := -20

def GetCursor : TokVal := -21

def HvHome : TokVal := -22

def HvPos : TokVal := -23

def Ident : TokVal := -24

def Index : TokVal := -25

def Invisible : TokVal := -26

def Led1 : TokVal := -27

def Led2 : TokVal := -28

def Led3 : TokVal := -29

def Led4 : TokVal := -30

def LedsOff : TokVal := -31

def LowInt : TokVal := -32

def ModesOff : TokVal := -33

def NextLine : TokVal := -34

def NumKeypad : TokVal := -35

def Reset : TokVal := -36

def ResetCol : TokVal := -37

def ResetInter : TokVal := -38

def ResetRep : TokVal := -39

def ResetWrap : TokVal := -40

def RestoreCursor : TokVal := -41

def Reverse : TokVal := -42

def RevIndex : TokVal := -43

def SaveCursor : TokVal := -44

def SetAltG0 : TokVal := -45

def SetAltG1 : TokVal := -46

def SetAltSpecG0 : TokVal := -47

def SetAltSpecG1 : TokVal := -48

def SetAppl : TokVal := -49

def SetCol : TokVal := -50

def SetCursor : TokVal := -51

def SetInter : TokVal := -52

def SetJump : TokVal := -53

def SetLF : TokVal := -54

def SetNL : TokVal := -55

def SetNormScrn : TokVal := -56

def SetOrgAbs : TokVal := -57

def SetOrgRel : TokVal := -58

def SetRep : TokVal := -59

def SetRevScrn : TokVal := -60

def SetSmooth : TokVal := -61

def SetSpecG0 : TokVal := -62

def SetSpecG1 : TokVal := -63

def SetSS2 : TokVal := -64

def SetSS3 : TokVal := -65

def SetUKG0 : TokVal := -66

def SetUKG1 : TokVal := -67

def SetUSG0 : TokVal := -68

def SetUSG1 : TokVal := -69

def SetVT52 : TokVal := -70

def SetWin : TokVal := -71

def SetWrap : TokVal := -72

def Swsh : TokVal := -73

def TabClr : TokVal := -74

def TabClrAll : TokVal := -75

def TabSet : TokVal := -76

def TestLB : TokVal := -77

def TestLBRep : TokVal := -78

def TestPU : TokVal := -79

def TestPURep : TokVal := -80

def Underline : TokVal := -81

/-- The literal pool: the whitespace-separated names scanned by init
into labelMap, in source order. -/
def tokNames : List String :=
  ["Align", "AltKeypad", "Blink", "Bold", "ClearBOL",
   "ClearBOS", "ClearEOL", "ClearEOS", "ClearLine", "ClearScreen",
   "CursorDn", "CursorHome", "CursorLf", "CursorPos", "CursorRt",
   "CursorUp", "DevStat", "DhBot", "DhTop", "Dwsh", "GetCursor",
   "HvHome", "HvPos", "Ident", "Index", "Invisible", "Led1", "Led2",
   "Led3", "Led4", "LedsOff", "LowInt", "ModesOff", "NextLine",
   "NumKeypad", "Reset", "ResetCol", "ResetInter", "ResetRep",
   "ResetWrap", "RestoreCursor", "Reverse", "RevIndex", "SaveCursor",
   "SetAltG0", "SetAltG1", "SetAltSpecG0", "SetAltSpecG1", "SetAppl",
   "SetCol", "SetCursor", "SetInter", "SetJump", "SetLF", "SetNL",
   "SetNormScrn", "SetOrgAbs", "SetOrgRel", "SetRep", "SetRevScrn",
   "SetSmooth", "SetSpecG0", "SetSpecG1", "SetSS2", "SetSS3",
   "SetUKG0", "SetUKG1", "SetUSG0", "SetUSG1", "SetVT52", "SetWin",
   "SetWrap", "Swsh", "TabClr", "TabClrAll", "TabSet", "TestLB",
   "TestLBRep", "TestPU", "TestPURep", "Underline"]

/-- labelMap as built by init: the i-th name (0-based) is keyed by the
token value -(i+1), mirroring the counter that starts at -1 and
decrements per scanned word. -/
def labelPairs : List (TokVal × String) :=
  tokNames.enum.map (fun p => (-(p.1 + 1 : Int), p.2))

/-- The String method on TokVal: look the value up in labelMap,
falling back to a question mark when absent. -/
def tokValString (t : TokVal) : String := (labelPairs.lookup t).getD "?"

/-- Each named token constant paired with its canonical identifier
string, for stating totality of the name lookup. -/
def namedPairs : List (TokVal × String) :=
  [(Align, "Align"), (AltKeypad, "AltKeypad"),
   (Blink, "Blink"), (Bold, "Bold"),
   (ClearBOL, "ClearBOL"), (ClearBOS, "ClearBOS"),
   (ClearEOL, "ClearEOL"), (ClearEOS, "ClearEOS"),
   (ClearLine, "ClearLine"), (ClearScreen, "ClearScreen"),
   (CursorDn, "CursorDn"), (CursorHome, "CursorHome"),
   (CursorLf, "CursorLf"), (CursorPos, "CursorPos"),
   (CursorRt, "CursorRt"), (CursorUp, "CursorUp"),
   (DevStat, "DevStat"), (DhBot, "DhBot"),
   (DhTop, "DhTop"), (Dwsh, "Dwsh"),
   (GetCursor, "GetCursor"), (HvHome, "HvHome"),
   (HvPos, "HvPos"), (Ident, "Ident"),
   (Index, "Index"), (Invisible, "Invisible"),
   (Led1, "Led1"), (Led2, "Led2"),
   (Led3, "Led3"), (Led4, "Led4"),
   (LedsOff, "LedsOff"), (LowInt, "LowInt"),
   (ModesOff, "ModesOff"), (NextLine, "NextLine"),
   (NumKeypad, "NumKeypad"), (Reset, "Reset"),
   (ResetCol, "ResetCol"), (ResetInter, "ResetInter"),
   (ResetRep, "ResetRep"), (ResetWrap, "ResetWrap"),
   (RestoreCursor, "RestoreCursor"), (Reverse, "Reverse"),
   (RevIndex, "RevIndex"), (SaveCursor, "SaveCursor"),
   (SetAltG0, "SetAltG0"), (SetAltG1, "SetAltG1"),
   (SetAltSpecG0, "SetAltSpecG0"), (SetAltSpecG1, "SetAltSpecG1"),
   (SetAppl, "SetAppl"), (SetCol, "SetCol"),
   (SetCursor, "SetCursor"), (SetInter, "SetInter"),
   (SetJump, "SetJump"), (SetLF, "SetLF"),
   (SetNL, "SetNL"), (SetNormScrn, "SetNormScrn"),
   (SetOrgAbs, "SetOrgAbs"), (SetOrgRel, "SetOrgRel"),
   (SetRep, "SetRep"), (SetRevScrn, "SetRevScrn"),
   (SetSmooth, "SetSmooth"), (SetSpecG0, "SetSpecG0"),
   (SetSpecG1, "SetSpecG1"), (SetSS2, "SetSS2"),
   (SetSS3, "SetSS3"), (SetUKG0, "SetUKG0"),
   (SetUKG1, "SetUKG1"), (SetUSG0, "SetUSG0"),
   (SetUSG1, "SetUSG1"), (SetVT52, "SetVT52"),
   (SetWin, "SetWin"), (SetWrap, "SetWrap"),
   (Swsh, "Swsh"), (TabClr, "TabClr"),
   (TabClrAll, "TabClrAll"), (TabSet, "TabSet"),
   (TestLB, "TestLB"), (TestLBRep, "TestLBRep"),
   (TestPU, "TestPU"), (TestPURep, "TestPURep"),
   (Underline, "Underline")]

/-- Token mirrors the Go struct: Value, Params, and the captured
escape sequence seq (raw bytes, here as Nats; a nil Go slice is []). -/
structure Token where
  value : TokVal
  params : List Nat
  raw : List Nat
deriving DecidableEq, Repr

/-- The state functions of the lexer, as an enumerated phase. -/
inductive Phase where
  | ground
  | intermediateChar
  | afterLeftSquareBracket
  | afterLeftParen
  | afterRightParen
  | escPound
  | escapeDigit
deriving DecidableEq, Repr

/-- The mutable lexer fields the state functions touch: the current
phase, the captured sequence buffer l.seq (none models a nil slice),
and the pending parameter list l.params. -/
structure LexState where
  phase : Phase
  seq : Option (List Nat)
  params : List Nat
deriving DecidableEq, Repr

/-- The fmt.Sscanf digit-token scan: the maximal leading run of
decimal digits, and the rest of the input. -/
def takeDigits : List Nat → List Nat × List Nat
  | [] => ([], [])
  | c :: rest =>
      if isDigitB c then
        let p := takeDigits rest
        (c :: p.1, p.2)
      else ([], c :: rest)

/-- Value of a digit run, most significant first. -/
def digitsVal (ds : List Nat) : Nat := ds.foldl (fun a d => a * 10 + (d - 48)) 0

/-- One %d conversion into a Go byte variable: scan a nonempty digit
run, fail on overflow past 255 (strconv range error inside Sscanf). -/
def scanByteNum (l : List Nat) : Option (Nat × List Nat) :=
  let p := takeDigits l
  if p.1 = [] then none
  else if digitsVal p.1 ≤ 255 then some (digitsVal p.1, p.2) else none

/-- fmt.Sscanf(body, pattern d-semicolon-d) into two byte variables:
succeeds (n = 2, err = nil) iff the first %d scans, a literal
semicolon follows, and the second %d scans; trailing input is ignored. -/
def scanTwo (l : List Nat) : Option (Nat × Nat) :=
  match scanByteNum l with
  | none => none
  | some (v, rest) =>
      match rest with
      | 59 :: rest2 =>
          match scanByteNum rest2 with
          | none => none
          | some (h, _) => some (v, h)
      | _ => none

/-- fmt.Sscanf(body, one %d) into one byte variable. -/
def scanOne (l : List Nat) : Option Nat :=
  match scanByteNum l with
  | none => none
  | some (v, _) => some v

/-- Result of one switch case of interpTerm that carries no params:
the token value looked up for the body, paired with empty params. -/
def tableTerm (tbl : List (List Nat × TokVal)) (body : List Nat) :
    Option (TokVal × List Nat) :=
  (tbl.lookup body).map (fun tv => (tv, []))

/-- The h-terminator switch of interpTerm: body cases in source order. -/
def hBodyTable : List (List Nat × TokVal) :=
  [(str "20h", SetNL), (str "?1h", SetAppl), (str "?3h", SetCol),
   (str "?4h", SetSmooth), (str "?5h", SetRevScrn), (str "?6h", SetOrgRel),
   (str "?7h", SetWrap), (str "?8h", SetRep), (str "?9h", SetInter)]

/-- The l-terminator switch of interpTerm. -/
def lBodyTable : List (List Nat × TokVal) :=
  [(str "20l", SetLF), (str "?1l", SetCursor), (str "?2l", SetVT52),
   (str "?3l", ResetCol), (str "?4l", SetJump), (str "?5l", SetNormScrn),
   (str "?6l", SetOrgAbs), (str "?7l", ResetWrap), (str "?8l", ResetRep),
   (str "?9l", ResetInter)]

/-- The m-terminator switch of interpTerm. -/
def mBodyTable : List (List Nat × TokVal) :=
  [(str "m", ModesOff), (str "0m", ModesOff), (str "1m", Bold),
   (str "2m", LowInt), (str "4m", Underline), (str "5m", Blink),
   (str "7m", Reverse), (str "8m", Invisible)]

/-- The g-terminator switch of interpTerm. -/
def gBodyTable : List (List Nat × TokVal) :=
  [(str "g", TabClr), (str "0g", TabClr), (str "3g", TabClrAll)]

/-- The K-terminator switch of interpTerm. -/
def kBodyTable : List (List Nat × TokVal) :=
  [(str "K", ClearEOL), (str "0K", ClearEOL), (str "1K", ClearBOL),
   (str "2K", ClearLine)]

/-- The J-terminator switch of interpTerm. -/
def jBodyTable : List (List Nat × TokVal) :=
  [(str "J", ClearEOS), (str "0J", ClearEOS), (str "1J", ClearBOS),
   (str "2J", ClearScreen)]

/-- The c-terminator switch of interpTerm. -/
def cBodyTable : List (List Nat × TokVal) :=
  [(str "c", Ident), (str "0c", Ident)]

/-- The y-terminator switch of interpTerm. -/
def yBodyTable : List (List Nat × TokVal) :=
  [(str "2;1y", TestPU), (str "2;2y", TestLB), (str "2;9y", TestPURep),
   (str "2;10y", TestLBRep)]

/-- The q-terminator switch of interpTerm. -/
def qBodyTable : List (List Nat × TokVal) :=
  [(str "0q", LedsOff), (str "1q", Led1), (str "2q", Led2),
   (str "3q", Led3), (str "4q", Led4)]

/-- The h-terminator case of interpTerm. -/
def termLowH (body : List Nat) : Option (TokVal × List Nat) :=
  tableTerm hBodyTable body

/-- The l-terminator case of interpTerm. -/
def termLowL (body : List Nat) : Option (TokVal × List Nat) :=
  tableTerm lBodyTable body

/-- The m-terminator case of interpTerm. -/
def termLowM (body : List Nat) : Option (TokVal × List Nat) :=
  tableTerm mBodyTable body

/-- The r-terminator case of interpTerm: scan top and bottom. -/
def termLowR (body : List Nat) : Option (TokVal × List Nat) :=
  match scanTwo body with
  | some (top, bottom) => some (SetWin, [top, bottom])
  | none => none

/-- The A-terminator case of interpTerm: scan a line count. -/
def termUpA (body : List Nat) : Option (TokVal × List Nat) :=
  match scanOne body with
  | some lines => some (CursorUp, [lines])
  | none => none

/-- The B-terminator case of interpTerm: scan a line count. -/
def termUpB (body : List Nat) : Option (TokVal × List Nat) :=
  match scanOne body with
  | some lines => some (CursorDn, [lines])
  | none => none

/-- The C-terminator case of interpTerm: scan a column count. -/
def termUpC (body : List Nat) : Option (TokVal × List Nat) :=
  match scanOne body with
  | some cols => some (CursorRt, [cols])
  | none => none

/-- The D-terminator case of interpTerm: scan a column count. -/
def termUpD (body : List Nat) : Option (TokVal × List Nat) :=
  match scanOne body with
  | some cols => some (CursorLf, [cols])
  | none => none

/-- The H-terminator case of interpTerm: bare or semicolon body is
CursorHome, otherwise scan the v;h coordinates. -/
def termUpH (body : List Nat) : Option (TokVal × List Nat) :=
  if body = str "H" ∨ body = str ";H" then some (CursorHome, [])
  else
    match scanTwo body with
    | some (v, h) => some (CursorPos, [v, h])
    | none => none

/-- The f-terminator case of interpTerm: bare or semicolon body is
HvHome, otherwise scan the v;h coordinates. -/
def termLowF (body : List Nat) : Option (TokVal × List Nat) :=
  if body = str "f" ∨ body = str ";f" then some (HvHome, [])
  else
    match scanTwo body with
    | some (v, h) => some (HvPos, [v, h])
    | none => none

/-- The g-terminator case of interpTerm. -/
def termLowG (body : List Nat) : Option (TokVal × List Nat) :=
  tableTerm gBodyTable body

/-- The K-terminator case of interpTerm. -/
def termUpK (body : List Nat) : Option (TokVal × List Nat) :=
  tableTerm kBodyTable body

/-- The J-terminator case of interpTerm. -/
def termUpJ (body : List Nat) : Option (TokVal × List Nat) :=
  tableTerm jBodyTable body

/-- The c-terminator case of interpTerm. -/
def termLowC (body : List Nat) : Option (TokVal × List Nat) :=
  tableTerm cBodyTable body

/-- The y-terminator case of interpTerm. -/
def termLowY (body : List Nat) : Option (TokVal × List Nat) :=
  tableTerm yBodyTable body

/-- The q-terminator case of interpTerm. -/
def termLowQ (body : List Nat) : Option (TokVal × List Nat) :=
  tableTerm qBodyTable body

/-- The outer switch of interpTerm on the terminator letter, as a
dispatch table from the letter byte to the case handler. -/
def termFnTable : List (Nat × (List Nat → Option (TokVal × List Nat))) :=
  [(104, termLowH), (108, termLowL), (109, termLowM), (114, termLowR),
   (65, termUpA), (66, termUpB), (67, termUpC), (68, termUpD),
   (72, termUpH), (102, termLowF), (103, termLowG), (75, termUpK),
   (74, termUpJ), (99, termLowC), (121, termLowY), (113, termLowQ)]

/-- interpTerm: dispatch on the terminator letter c, then match the
body (the bytes of l.seq from index 2 on, terminator included) against
the corresponding switch; the token value to send together with the
params to set, or none when no case matches. -/
def interpTerm (c : Nat) (body : List Nat) : Option (TokVal × List Nat) :=
  match termFnTable.lookup c with
  | some f => f body
  | none => none

/-- The ground state function: reset the accumulator fields; an
escape introducer starts a fresh sequence buffer and enters
intermediateChar, any other byte is sent as its own token value. -/
def ground (c : Nat) : List Token × LexState :=
  if c = 27 then ([], ⟨.intermediateChar, some [27], []⟩)
  else ([⟨(c : Int), [], []⟩], ⟨.ground, none, []⟩)

/-- The single-byte emitting cases of the intermediateChar switch, in
source order. -/
def intermediateTable : List (Nat × TokVal) :=
  [(68, Index), (77, RevIndex), (78, SetSS2), (79, SetSS3), (69, NextLine),
   (55, SaveCursor), (56, RestoreCursor), (61, AltKeypad), (62, NumKeypad),
   (72, TabSet), (99, Reset)]

/-- The intermediateChar state function: dispatch on the byte after
the escape introducer; bracket, paren and pound bytes switch states,
the mapped single bytes emit directly, a digit enters escapeDigit, and
anything else falls back to ground.  sq is the sequence buffer after
the run loop appended the current byte; ps is l.params. -/
def intermediateChar (sq : Option (List Nat)) (ps : List Nat) (c : Nat) :
    List Token × LexState :=
  if c = 91 then ([], ⟨.afterLeftSquareBracket, sq, ps⟩)
  else if c = 40 then ([], ⟨.afterLeftParen, sq, ps⟩)
  else if c = 41 then ([], ⟨.afterRightParen, sq, ps⟩)
  else if c = 35 then ([], ⟨.escPound, sq, ps⟩)
  else
    match intermediateTable.lookup c with
    | some tv => ([⟨tv, ps, sq.getD []⟩], ⟨.ground, sq, ps⟩)
    | none =>
        if isDigitB c then ([], ⟨.escapeDigit, sq, ps⟩)
        else ([], ⟨.ground, sq, ps⟩)

/-- The afterLeftSquareBracket state function: a letter terminates the
sequence and is interpreted; other printable non-whitespace bytes keep
accumulating (the run loop already appended them to sq); anything else
aborts to ground. -/
def afterLeftSquareBracket (sq : Option (List Nat)) (ps : List Nat) (c : Nat) :
    List Token × LexState :=
  if isLetterB c then
    match interpTerm c ((sq.getD []).drop 2) with
    | some (tv, qs) => ([⟨tv, qs, sq.getD []⟩], ⟨.ground, sq, qs⟩)
    | none => ([], ⟨.ground, sq, ps⟩)
  else if isPrintB c && !isSpaceB c then
    ([], ⟨.afterLeftSquareBracket, sq, ps⟩)
  else ([], ⟨.ground, sq, ps⟩)

/-- The afterLeftParen switch cases: G0 character-set designations. -/
def parenG0Table : List (Nat × TokVal) :=
  [(65, SetUKG0), (66, SetUSG0), (48, SetSpecG0), (49, SetAltG0),
   (50, SetAltSpecG0)]

/-- The afterRightParen switch cases: G1 character-set designations. -/
def parenG1Table : List (Nat × TokVal) :=
  [(65, SetUKG1), (66, SetUSG1), (48, SetSpecG1), (49, SetAltG1),
   (50, SetAltSpecG1)]

/-- The escPound switch cases: double-height, double-width and
alignment sequences. -/
def poundTable : List (Nat × TokVal) :=
  [(51, DhTop), (52, DhBot), (53, Swsh), (54, Dwsh), (56, Align)]

/-- The afterLeftParen state function: map the byte through the G0
table, emitting on a hit and silently dropping otherwise. -/
def afterLeftParen (sq : Option (List Nat)) (ps : List Nat) (c : Nat) :
    List Token × LexState :=
  match parenG0Table.lookup c with
  | some tv => ([⟨tv, ps, sq.getD []⟩], ⟨.ground, sq, ps⟩)
  | none => ([], ⟨.ground, sq, ps⟩)

/-- The afterRightParen state function: map the byte through the G1
table, emitting on a hit and silently dropping otherwise. -/
def afterRightParen (sq : Option (List Nat)) (ps : List Nat) (c : Nat) :
    List Token × LexState :=
  match parenG1Table.lookup c with
  | some tv => ([⟨tv, ps, sq.getD []⟩], ⟨.ground, sq, ps⟩)
  | none => ([], ⟨.ground, sq, ps⟩)

/-- The escPound state function: map the byte through the pound table,
emitting on a hit and silently dropping otherwise. -/
def escPound (sq : Option (List Nat)) (ps : List Nat) (c : Nat) :
    List Token × LexState :=
  match poundTable.lookup c with
  | some tv => ([⟨tv, ps, sq.getD []⟩], ⟨.ground, sq, ps⟩)
  | none => ([], ⟨.ground, sq, ps⟩)

/-- The escapeDigit state function: device-status sequences without a
left square bracket; the body is l.seq from index 1 on. -/
def escapeDigit (sq : Option (List Nat)) (ps : List Nat) (c : Nat) :
    List Token × LexState :=
  if (sq.getD []).drop 1 = str "5n" then
    ([⟨DevStat, ps, sq.getD []⟩], ⟨.ground, sq, ps⟩)
  else if (sq.getD []).drop 1 = str "6n" then
    ([⟨GetCursor, ps, sq.getD []⟩], ⟨.ground, sq, ps⟩)
  else ([], ⟨.ground, sq, ps⟩)

/-- The byte-append of the run loop: l.seq gets the masked byte
appended when a sequence is being captured (l.seq non-nil). -/
def seqApp (sq : Option (List Nat)) (c : Nat) : Option (List Nat) :=
  match sq with
  | none => none
  | some xs => some (xs ++ [c])

/-- One iteration of the run loop: mask the byte to 7 bits, append it
to the sequence buffer when one is active, and apply the current state
function, collecting the tokens sent on the Output channel. -/
def step (l : LexState) (craw : Nat) : List Token × LexState :=
  let c := craw % 128
  let sq := seqApp l.seq c
  match l.phase with
  | .ground => ground c
  | .intermediateChar => intermediateChar sq l.params c
  | .afterLeftSquareBracket => afterLeftSquareBracket sq l.params c
  | .afterLeftParen => afterLeftParen sq l.params c
  | .afterRightParen => afterRightParen sq l.params c
  | .escPound => escPound sq l.params c
  | .escapeDigit => escapeDigit sq l.params c

/-- Feed a list of bytes through the run loop, collecting all tokens
sent and the final state. -/
def processList (bs : List Nat) (st : LexState) : List Token × LexState :=
  match bs with
  | [] => ([], st)
  | b :: rest =>
      let p := step st b
      let q := processList rest p.2
      (p.1 ++ q.1, q.2)

/-- The state a freshly constructed lexer starts in: the ground state
function, no captured sequence, no params. -/
def initState : LexState := ⟨.ground, none, []⟩

/-- All tokens produced for an input byte list fed to a fresh lexer. -/
def lexList (bs : List Nat) : List Token := (processList bs initState).1

/-- Decimal digit bytes of n, most significant first (used to build
the input bytes that carry a numeric parameter). -/
def decBytes (n : Nat) : List Nat :=
  if h : n < 10 then [48 + n]
  else decBytes (n / 10) ++ [48 + n % 10]
decreasing_by exact Nat.div_lt_self (by omega) (by omega)

/-- A byte that afterLeftSquareBracket accumulates: below the mask
bound, not a letter, printable and not whitespace. -/
def accumByte (c : Nat) : Prop :=
  c < 128 ∧ isLetterB c = false ∧ (isPrintB c && !isSpaceB c) = true

instance accumByte_decidable (c : Nat) : Decidable (accumByte c) := by
  unfold accumByte
  infer_instance

/-- The head of the list, when present, is not a decimal digit. -/
def headND (l : List Nat) : Prop :=
  ∀ d, l.head? = some d → isDigitB d = false

/-- The tokens a full bracket sequence ESC [ mid t produces, as decided
by interpTerm on the body mid ++ [t]. -/
def seqOut (mid : List Nat) (t : Nat) : List Token :=
  match interpTerm t (mid ++ [t]) with
  | some (tv, qs) => [⟨tv, qs, 27 :: 91 :: (mid ++ [t])⟩]
  | none => []

theorem processList_append (xs ys : List Nat) (st : LexState) :
    processList (xs ++ ys) st =
      ((processList xs st).1 ++ (processList ys (processList xs st).2).1,
       (processList ys (processList xs st).2).2) := by
  induction xs generalizing st with
  | nil => simp [processList]
  | cons b rest ih => simp [processList, ih]

theorem step_of_ground (st : LexState) (b : Nat) (h : st.phase = .ground) :
    step st b = step initState b := by
  obtain ⟨ph, sq, ps⟩ := st
  subst h
  rfl

theorem processList_tokens_of_ground (bs : List Nat) (st : LexState)
    (h : st.phase = .ground) :
    (processList bs st).1 = lexList bs := by
  cases bs with
  | nil => rfl
  | cons b rest =>
      show (processList (b :: rest) st).1 = (processList (b :: rest) initState).1
      simp only [processList]
      rw [step_of_ground st b h]

theorem accum_run (ds : List Nat) (bs ps : List Nat)
    (h : ∀ d ∈ ds, accumByte d) :
    processList ds ⟨.afterLeftSquareBracket, some bs, ps⟩ =
      ([], ⟨.afterLeftSquareBracket, some (bs ++ ds), ps⟩) := by
  induction ds generalizing bs with
  | nil => simp [processList]
  | cons d rest ih =>
      obtain ⟨hlt, hnl, hpr⟩ := h d (by simp)
      have hstep : step ⟨.afterLeftSquareBracket, some bs, ps⟩ d =
          ([], ⟨.afterLeftSquareBracket, some (bs ++ [d]), ps⟩) := by
        simp [step, seqApp, afterLeftSquareBracket, Nat.mod_eq_of_lt hlt, hnl, hpr]
      have hrest := ih (bs ++ [d]) (fun x hx => h x (by simp [hx]))
      simp [processList, hstep, hrest]

theorem step_terminator (bs ps : List Nat) (t : Nat) (hlt : t < 128)
    (hl : isLetterB t = true) :
    step ⟨.afterLeftSquareBracket, some bs, ps⟩ t =
      (match interpTerm t ((bs ++ [t]).drop 2) with
       | some (tv, qs) => ([⟨tv, qs, bs ++ [t]⟩], ⟨.ground, some (bs ++ [t]), qs⟩)
       | none => ([], ⟨.ground, some (bs ++ [t]), ps⟩)) := by
  simp only [step, seqApp, afterLeftSquareBracket, Nat.mod_eq_of_lt hlt, hl]
  split <;> simp_all

theorem lexSeq (mid : List Nat) (t : Nat)
    (hmid : ∀ d ∈ mid, accumByte d) (hlt : t < 128)
    (hl : isLetterB t = true) :
    (processList (27 :: 91 :: (mid ++ [t])) initState).1 = seqOut mid t ∧
    (processList (27 :: 91 :: (mid ++ [t])) initState).2.phase = .ground := by
  have h1 : step initState 27 = ([], ⟨.intermediateChar, some [27], []⟩) := by decide
  have h2 : step ⟨.intermediateChar, some [27], []⟩ 91 =
      ([], ⟨.afterLeftSquareBracket, some [27, 91], []⟩) := by decide
  have h3 := accum_run mid [27, 91] [] hmid
  have h4 := step_terminator (27 :: 91 :: mid) [] t hlt hl
  have hdrop : ((27 :: 91 :: mid) ++ [t]).drop 2 = mid ++ [t] := by simp
  rw [hdrop] at h4
  have h3' : processList mid ⟨.afterLeftSquareBracket, some [27, 91], []⟩ =
      ([], ⟨.afterLeftSquareBracket, some (27 :: 91 :: mid), []⟩) := by
    simpa using h3
  cases hI : interpTerm t (mid ++ [t]) with
  | none =>
      rw [hI] at h4
      simp only [processList, h1, h2, List.nil_append, processList_append, h3', h4,
        seqOut, hI]
      simp
  | some pr =>
      obtain ⟨tv, qs⟩ := pr
      rw [hI] at h4
      simp only [processList, h1, h2, List.nil_append, processList_append, h3', h4,
        seqOut, hI]
      simp

theorem isDigitB_iff (d : Nat) : isDigitB d = true ↔ 48 ≤ d ∧ d ≤ 57 := by
  simp [isDigitB]

theorem takeDigits_append (ds rest : List Nat)
    (hd : ∀ d ∈ ds, isDigitB d = true) (hr : headND rest) :
    takeDigits (ds ++ rest) = (ds, rest) := by
  induction ds with
  | nil =>
      cases rest with
      | nil => rfl
      | cons c r =>
          have := hr c (by simp)
          simp [takeDigits, this]
  | cons d ds ih =>
      have h1 := hd d (by simp)
      have h2 := ih (fun x hx => hd x (by simp [hx]))
      simp [takeDigits, h1, h2]

theorem digitsVal_append (ds : List Nat) (d : Nat) :
    digitsVal (ds ++ [d]) = digitsVal ds * 10 + (d - 48) := by
  simp [digitsVal, List.foldl_append]

theorem decBytes_digits (n : Nat) : ∀ d ∈ decBytes n, isDigitB d = true := by
  induction n using Nat.strong_induction_on with
  | _ n ih =>
      rw [decBytes]
      split
      · intro d hd
        simp only [List.mem_singleton] at hd
        subst hd
        rw [isDigitB_iff]
        omega
      · intro d hd
        rw [List.mem_append] at hd
        rcases hd with hd | hd
        · exact ih (n / 10) (Nat.div_lt_self (by omega) (by omega)) d hd
        · simp only [List.mem_singleton] at hd
          subst hd
          rw [isDigitB_iff]
          omega

theorem decBytes_ne_nil (n : Nat) : decBytes n ≠ [] := by
  rw [decBytes]
  split <;> simp

theorem decBytes_head (n : Nat) :
    ∃ d r, decBytes n = d :: r ∧ 48 ≤ d ∧ d ≤ 57 := by
  cases h : decBytes n with
  | nil => exact absurd h (decBytes_ne_nil n)
  | cons d r =>
      have := decBytes_digits n d (by rw [h]; simp)
      rw [isDigitB_iff] at this
      exact ⟨d, r, rfl, this.1, this.2⟩

theorem digitsVal_decBytes (n : Nat) : digitsVal (decBytes n) = n := by
  induction n using Nat.strong_induction_on with
  | _ n ih =>
      rw [decBytes]
      split
      · simp [digitsVal]
      · rw [digitsVal_append, ih (n / 10) (Nat.div_lt_self (by omega) (by omega))]
        omega

theorem scanByteNum_decBytes (v : Nat) (rest : List Nat) (hv : v ≤ 255)
    (hr : headND rest) : scanByteNum (decBytes v ++ rest) = some (v, rest) := by
  unfold scanByteNum
  rw [takeDigits_append _ _ (decBytes_digits v) hr]
  simp [decBytes_ne_nil, digitsVal_decBytes, hv]

theorem scanTwo_decBytes (v h : Nat) (rest : List Nat) (hv : v ≤ 255)
    (hh : h ≤ 255) (hr : headND rest) :
    scanTwo (decBytes v ++ 59 :: (decBytes h ++ rest)) = some (v, h) := by
  have h59 : headND (59 :: (decBytes h ++ rest)) := by
    intro d hd
    simp only [List.head?_cons, Option.some.injEq] at hd
    subst hd
    decide
  unfold scanTwo
  rw [scanByteNum_decBytes v _ hv h59]
  simp only [scanByteNum_decBytes h rest hh hr]

theorem scanOne_decBytes (n : Nat) (rest : List Nat) (hn : n ≤ 255)
    (hr : headND rest) : scanOne (decBytes n ++ rest) = some n := by
  unfold scanOne
  rw [scanByteNum_decBytes n rest hn hr]

theorem accumByte_of_digit (d : Nat) (h1 : 48 ≤ d) (h2 : d ≤ 57) : accumByte d := by
  refine ⟨by omega, ?_, ?_⟩
  · simp [isLetterB]
    omega
  · simp [isPrintB, isSpaceB]
    omega

theorem interpTerm_H_pos (body : List Nat) (v h : Nat) (h1 : body ≠ str "H")
    (h2 : body ≠ str ";H") (hs : scanTwo body = some (v, h)) :
    interpTerm 72 body = some (CursorPos, [v, h]) := by
  have hd : interpTerm 72 body = termUpH body := rfl
  rw [hd]
  simp [termUpH, h1, h2, hs]

theorem interpTerm_r_pos (body : List Nat) (v h : Nat)
    (hs : scanTwo body = some (v, h)) :
    interpTerm 114 body = some (SetWin, [v, h]) := by
  have hd : interpTerm 114 body = termLowR body := rfl
  rw [hd]
  simp [termLowR, hs]

theorem interpTerm_A_pos (body : List Nat) (n : Nat)
    (hs : scanOne body = some n) :
    interpTerm 65 body = some (CursorUp, [n]) := by
  have hd : interpTerm 65 body = termUpA body := rfl
  rw [hd]
  simp [termUpA, hs]

theorem lex_cursorPos_general (v h : Nat) (junk : List Nat) (hv : v ≤ 255)
    (hh : h ≤ 255) (hjunk : ∀ d ∈ junk, accumByte d)
    (hnd : headND (junk ++ [72])) :
    (processList (27 :: 91 :: ((decBytes v ++ 59 :: (decBytes h ++ junk)) ++ [72]))
        initState).1 =
      [⟨CursorPos, [v, h],
        27 :: 91 :: ((decBytes v ++ 59 :: (decBytes h ++ junk)) ++ [72])⟩] ∧
    (processList (27 :: 91 :: ((decBytes v ++ 59 :: (decBytes h ++ junk)) ++ [72]))
        initState).2.phase = .ground := by
  have hmid : ∀ d ∈ decBytes v ++ 59 :: (decBytes h ++ junk), accumByte d := by
    intro d hd
    simp only [List.mem_append, List.mem_cons] at hd
    rcases hd with hd | hd | hd | hd
    · have := decBytes_digits v d hd
      rw [isDigitB_iff] at this
      exact accumByte_of_digit d this.1 this.2
    · subst hd
      exact ⟨by decide, by decide, by decide⟩
    · have := decBytes_digits h d hd
      rw [isDigitB_iff] at this
      exact accumByte_of_digit d this.1 this.2
    · exact hjunk d hd
  have hls := lexSeq (decBytes v ++ 59 :: (decBytes h ++ junk)) 72 hmid
    (by decide) (by decide)
  have hbody : (decBytes v ++ 59 :: (decBytes h ++ junk)) ++ [72] =
      decBytes v ++ 59 :: (decBytes h ++ (junk ++ [72])) := by
    simp
  obtain ⟨d, r, hdr, hd1, hd2⟩ := decBytes_head v
  have hH : str "H" = [72] := by decide
  have hsemiH : str ";H" = [59, 72] := by decide
  have hne1 : (decBytes v ++ 59 :: (decBytes h ++ junk)) ++ [72] ≠ str "H" := by
    rw [hH, hdr]
    intro heq
    simp at heq
  have hne2 : (decBytes v ++ 59 :: (decBytes h ++ junk)) ++ [72] ≠ str ";H" := by
    rw [hsemiH, hdr]
    intro heq
    simp at heq
    omega
  have hscan : scanTwo ((decBytes v ++ 59 :: (decBytes h ++ junk)) ++ [72]) =
      some (v, h) := by
    rw [hbody]
    exact scanTwo_decBytes v h (junk ++ [72]) hv hh hnd
  have hint := interpTerm_H_pos _ _ _ hne1 hne2 hscan
  rcases hls with ⟨htok, hph⟩
  unfold seqOut at htok
  rw [hint] at htok
  exact ⟨htok, hph⟩

theorem lex_setWin (v h : Nat) (hv : v ≤ 255) (hh : h ≤ 255) :
    (processList (27 :: 91 :: ((decBytes v ++ 59 :: decBytes h) ++ [114]))
        initState).1 =
      [⟨SetWin, [v, h], 27 :: 91 :: ((decBytes v ++ 59 :: decBytes h) ++ [114])⟩] ∧
    (processList (27 :: 91 :: ((decBytes v ++ 59 :: decBytes h) ++ [114]))
        initState).2.phase = .ground := by
  have hmid : ∀ d ∈ decBytes v ++ 59 :: decBytes h, accumByte d := by
    intro d hd
    simp only [List.mem_append, List.mem_cons] at hd
    rcases hd with hd | hd | hd
    · have := decBytes_digits v d hd
      rw [isDigitB_iff] at this
      exact accumByte_of_digit d this.1 this.2
    · subst hd
      exact ⟨by decide, by decide, by decide⟩
    · have := decBytes_digits h d hd
      rw [isDigitB_iff] at this
      exact accumByte_of_digit d this.1 this.2
  have hls := lexSeq (decBytes v ++ 59 :: decBytes h) 114 hmid (by decide) (by decide)
  have hscan : scanTwo ((decBytes v ++ 59 :: decBytes h) ++ [114]) = some (v, h) := by
    have hbody : (decBytes v ++ 59 :: decBytes h) ++ [114] =
        decBytes v ++ 59 :: (decBytes h ++ [114]) := by
      simp
    rw [hbody]
    exact scanTwo_decBytes v h [114] hv hh (by intro d hd; simp at hd; subst hd; decide)
  have hint := interpTerm_r_pos _ _ _ hscan
  rcases hls with ⟨htok, hph⟩
  unfold seqOut at htok
  rw [hint] at htok
  exact ⟨htok, hph⟩

theorem lex_cursorUp (n : Nat) (hn : n ≤ 255) :
    (processList (27 :: 91 :: (decBytes n ++ [65])) initState).1 =
      [⟨CursorUp, [n], 27 :: 91 :: (decBytes n ++ [65])⟩] ∧
    (processList (27 :: 91 :: (decBytes n ++ [65])) initState).2.phase = .ground := by
  have hmid : ∀ d ∈ decBytes n, accumByte d := by
    intro d hd
    have := decBytes_digits n d hd
    rw [isDigitB_iff] at this
    exact accumByte_of_digit d this.1 this.2
  have hls := lexSeq (decBytes n) 65 hmid (by decide) (by decide)
  have hscan : scanOne (decBytes n ++ [65]) = some n :=
    scanOne_decBytes n [65] hn (by intro d hd; simp at hd; subst hd; decide)
  have hint := interpTerm_A_pos _ _ hscan
  rcases hls with ⟨htok, hph⟩
  unfold seqOut at htok
  rw [hint] at htok
  exact ⟨htok, hph⟩

theorem plainRun (bs : List Nat) (st : LexState) (h : ∀ b ∈ bs, b % 128 ≠ 27)
    (hst : st.phase = .ground) :
    (processList bs st).1 = bs.map (fun b => ⟨((b % 128 : Nat) : Int), [], []⟩) ∧
    (processList bs st).2.phase = .ground := by
  induction bs generalizing st with
  | nil => simp [processList, hst]
  | cons b rest ih =>
      have hb := h b (by simp)
      have hstep : step st b = ([⟨((b % 128 : Nat) : Int), [], []⟩], initState) := by
        rw [step_of_ground st b hst]
        simp [step, ground, initState, hb]
      have hrest := ih initState (fun x hx => h x (by simp [hx])) rfl
      simp [processList, hstep, hrest.1, hrest.2]



theorem lookup_mem {α β : Type} [BEq α] (l : List (α × β)) (k : α) (v : β)
    (h : l.lookup k = some v) : v ∈ l.map Prod.snd := by
  induction l with
  | nil => exact Option.noConfusion h
  | cons p es ih =>
      obtain ⟨k1, v1⟩ := p
      rw [List.lookup] at h
      cases hbe : k == k1 with
      | true =>
          rw [hbe] at h
          injection h with h1
          subst h1
          simp
      | false =>
          rw [hbe] at h
          simp only [List.map_cons, List.mem_cons]
          exact Or.inr (ih h)

theorem lookup_none_of_keys {α β : Type} [BEq α] [LawfulBEq α]
    (l : List (α × β)) (k : α) (h : ∀ p ∈ l, p.1 ≠ k) : l.lookup k = none := by
  induction l with
  | nil => rfl
  | cons p es ih =>
      obtain ⟨k1, v1⟩ := p
      have hne := h (k1, v1) (by simp)
      have hbeq : (k == k1) = false := by
        simp only [beq_eq_false_iff_ne]
        exact fun hk => hne hk.symm
      rw [List.lookup, hbeq]
      exact ih (fun q hq => h q (by simp [hq]))

theorem tableTerm_range (tbl : List (List Nat × TokVal)) (body : List Nat)
    (tv : TokVal) (ps : List Nat)
    (hall : ∀ x ∈ tbl.map Prod.snd, -81 ≤ x ∧ x ≤ -1)
    (h : tableTerm tbl body = some (tv, ps)) : -81 ≤ tv ∧ tv ≤ -1 := by
  unfold tableTerm at h
  cases hl : tbl.lookup body with
  | none => rw [hl] at h; exact Option.noConfusion h
  | some v =>
      rw [hl] at h
      injection h with hp
      injection hp with h1 h2
      subst h1
      exact hall v (lookup_mem tbl body v hl)

theorem scanPair_range (r : Option (Nat × Nat)) (tag : TokVal) (tv : TokVal)
    (ps : List Nat) (htag : -81 ≤ tag ∧ tag ≤ -1)
    (h : (match r with
          | some (v, w) => some (tag, [v, w])
          | none => none) = some (tv, ps)) : -81 ≤ tv ∧ tv ≤ -1 := by
  cases r with
  | none => exact Option.noConfusion h
  | some p =>
      obtain ⟨v, w⟩ := p
      injection h with hp
      injection hp with h1 h2
      subst h1
      exact htag

theorem scanSingle_range (r : Option Nat) (tag : TokVal) (tv : TokVal)
    (ps : List Nat) (htag : -81 ≤ tag ∧ tag ≤ -1)
    (h : (match r with
          | some v => some (tag, [v])
          | none => none) = some (tv, ps)) : -81 ≤ tv ∧ tv ≤ -1 := by
  cases r with
  | none => exact Option.noConfusion h
  | some v =>
      injection h with hp
      injection hp with h1 h2
      subst h1
      exact htag

theorem termUpH_range (body : List Nat) (tv : TokVal) (ps : List Nat)
    (h : termUpH body = some (tv, ps)) : -81 ≤ tv ∧ tv ≤ -1 := by
  unfold termUpH at h
  split_ifs at h
  · injection h with hp
    injection hp with h1 h2
    subst h1
    decide
  · exact scanPair_range (scanTwo body) CursorPos tv ps (by decide) h

theorem termLowF_range (body : List Nat) (tv : TokVal) (ps : List Nat)
    (h : termLowF body = some (tv, ps)) : -81 ≤ tv ∧ tv ≤ -1 := by
  unfold termLowF at h
  split_ifs at h
  · injection h with hp
    injection hp with h1 h2
    subst h1
    decide
  · exact scanPair_range (scanTwo body) HvPos tv ps (by decide) h

theorem interpTerm_range (c : Nat) (body : List Nat) (tv : TokVal) (ps : List Nat)
    (h : interpTerm c body = some (tv, ps)) : -81 ≤ tv ∧ tv ≤ -1 := by
  unfold interpTerm at h
  cases hl : termFnTable.lookup c with
  | none => rw [hl] at h; exact Option.noConfusion h
  | some f =>
      rw [hl] at h
      have hf := lookup_mem termFnTable c f hl
      simp only [termFnTable, List.map_cons, List.map_nil, List.mem_cons,
        List.not_mem_nil, or_false] at hf
      rcases hf with hf | hf | hf | hf | hf | hf | hf | hf | hf | hf | hf | hf |
        hf | hf | hf | hf
      · subst hf; exact tableTerm_range hBodyTable body tv ps (by decide) h
      · subst hf; exact tableTerm_range lBodyTable body tv ps (by decide) h
      · subst hf; exact tableTerm_range mBodyTable body tv ps (by decide) h
      · subst hf; exact scanPair_range (scanTwo body) SetWin tv ps (by decide) h
      · subst hf; exact scanSingle_range (scanOne body) CursorUp tv ps (by decide) h
      · subst hf; exact scanSingle_range (scanOne body) CursorDn tv ps (by decide) h
      · subst hf; exact scanSingle_range (scanOne body) CursorRt tv ps (by decide) h
      · subst hf; exact scanSingle_range (scanOne body) CursorLf tv ps (by decide) h
      · subst hf; exact termUpH_range body tv ps h
      · subst hf; exact termLowF_range body tv ps h
      · subst hf; exact tableTerm_range gBodyTable body tv ps (by decide) h
      · subst hf; exact tableTerm_range kBodyTable body tv ps (by decide) h
      · subst hf; exact tableTerm_range jBodyTable body tv ps (by decide) h
      · subst hf; exact tableTerm_range cBodyTable body tv ps (by decide) h
      · subst hf; exact tableTerm_range yBodyTable body tv ps (by decide) h
      · subst hf; exact tableTerm_range qBodyTable body tv ps (by decide) h


theorem step_eq_ground (sq : Option (List Nat)) (ps : List Nat) (b : Nat) :
    step ⟨.ground, sq, ps⟩ b = ground (b % 128) := rfl

theorem step_eq_intermediate (sq : Option (List Nat)) (ps : List Nat) (b : Nat) :
    step ⟨.intermediateChar, sq, ps⟩ b =
      intermediateChar (seqApp sq (b % 128)) ps (b % 128) := rfl

theorem step_eq_bracket (sq : Option (List Nat)) (ps : List Nat) (b : Nat) :
    step ⟨.afterLeftSquareBracket, sq, ps⟩ b =
      afterLeftSquareBracket (seqApp sq (b % 128)) ps (b % 128) := rfl

theorem step_eq_leftParen (sq : Option (List Nat)) (ps : List Nat) (b : Nat) :
    step ⟨.afterLeftParen, sq, ps⟩ b =
      afterLeftParen (seqApp sq (b % 128)) ps (b % 128) := rfl

theorem step_eq_rightParen (sq : Option (List Nat)) (ps : List Nat) (b : Nat) :
    step ⟨.afterRightParen, sq, ps⟩ b =
      afterRightParen (seqApp sq (b % 128)) ps (b % 128) := rfl

theorem step_eq_pound (sq : Option (List Nat)) (ps : List Nat) (b : Nat) :
    step ⟨.escPound, sq, ps⟩ b = escPound (seqApp sq (b % 128)) ps (b % 128) := rfl

theorem step_eq_escDigit (sq : Option (List Nat)) (ps : List Nat) (b : Nat) :
    step ⟨.escapeDigit, sq, ps⟩ b =
      escapeDigit (seqApp sq (b % 128)) ps (b % 128) := rfl

theorem ground_value (c : Nat) (hc : c < 128) :
    ∀ t ∈ (ground c).1, 0 ≤ t.value ∧ t.value ≤ 127 := by
  intro t ht
  unfold ground at ht
  split_ifs at ht
  · exact absurd ht (List.not_mem_nil _)
  · rw [List.mem_singleton] at ht
    subst ht
    constructor
    · show (0 : Int) ≤ (c : Int)
      omega
    · show (c : Int) ≤ (127 : Int)
      omega

theorem ground_raw (c : Nat) : ∀ t ∈ (ground c).1, t.raw = [] ∧ t.params = [] := by
  intro t ht
  unfold ground at ht
  split_ifs at ht
  · exact absurd ht (List.not_mem_nil _)
  · rw [List.mem_singleton] at ht
    subst ht
    exact ⟨rfl, rfl⟩

theorem intermediateChar_value (sq : Option (List Nat)) (ps : List Nat) (c : Nat) :
    ∀ t ∈ (intermediateChar sq ps c).1, -81 ≤ t.value ∧ t.value ≤ -1 := by
  intro t ht
  unfold intermediateChar at ht
  split_ifs at ht <;> try split at ht
  all_goals
    first
      | exact absurd ht (List.not_mem_nil _)
      | (rename_i tv hl
         rw [List.mem_singleton] at ht
         subst ht
         have hall : ∀ x ∈ intermediateTable.map Prod.snd, -81 ≤ x ∧ x ≤ -1 := by
           decide
         exact hall tv (lookup_mem intermediateTable c tv hl))

theorem intermediateChar_raw (sq : Option (List Nat)) (ps : List Nat) (c : Nat) :
    ∀ t ∈ (intermediateChar sq ps c).1, t.raw = sq.getD [] := by
  intro t ht
  unfold intermediateChar at ht
  split_ifs at ht <;> try split at ht
  all_goals
    first
      | exact absurd ht (List.not_mem_nil _)
      | (rw [List.mem_singleton] at ht
         subst ht
         rfl)

theorem afterLeftSquareBracket_value (sq : Option (List Nat)) (ps : List Nat)
    (c : Nat) :
    ∀ t ∈ (afterLeftSquareBracket sq ps c).1, -81 ≤ t.value ∧ t.value ≤ -1 := by
  intro t ht
  unfold afterLeftSquareBracket at ht
  split_ifs at ht <;> try split at ht
  all_goals
    first
      | exact absurd ht (List.not_mem_nil _)
      | (rename_i tv qs heq
         rw [List.mem_singleton] at ht
         subst ht
         exact interpTerm_range _ _ _ _ heq)

theorem afterLeftSquareBracket_raw (sq : Option (List Nat)) (ps : List Nat)
    (c : Nat) :
    ∀ t ∈ (afterLeftSquareBracket sq ps c).1, t.raw = sq.getD [] := by
  intro t ht
  unfold afterLeftSquareBracket at ht
  split_ifs at ht <;> try split at ht
  all_goals
    first
      | exact absurd ht (List.not_mem_nil _)
      | (rw [List.mem_singleton] at ht
         subst ht
         rfl)

theorem afterLeftParen_value (sq : Option (List Nat)) (ps : List Nat) (c : Nat) :
    ∀ t ∈ (afterLeftParen sq ps c).1, -81 ≤ t.value ∧ t.value ≤ -1 := by
  intro t ht
  unfold afterLeftParen at ht
  split at ht
  · rename_i tv hl
    rw [List.mem_singleton] at ht
    subst ht
    have hall : ∀ x ∈ parenG0Table.map Prod.snd, -81 ≤ x ∧ x ≤ -1 := by decide
    exact hall tv (lookup_mem parenG0Table c tv hl)
  · exact absurd ht (List.not_mem_nil _)

theorem afterLeftParen_raw (sq : Option (List Nat)) (ps : List Nat) (c : Nat) :
    ∀ t ∈ (afterLeftParen sq ps c).1, t.raw = sq.getD [] := by
  intro t ht
  unfold afterLeftParen at ht
  split at ht
  · rw [List.mem_singleton] at ht
    subst ht
    rfl
  · exact absurd ht (List.not_mem_nil _)

theorem afterRightParen_value (sq : Option (List Nat)) (ps : List Nat) (c : Nat) :
    ∀ t ∈ (afterRightParen sq ps c).1, -81 ≤ t.value ∧ t.value ≤ -1 := by
  intro t ht
  unfold afterRightParen at ht
  split at ht
  · rename_i tv hl
    rw [List.mem_singleton] at ht
    subst ht
    have hall : ∀ x ∈ parenG1Table.map Prod.snd, -81 ≤ x ∧ x ≤ -1 := by decide
    exact hall tv (lookup_mem parenG1Table c tv hl)
  · exact absurd ht (List.not_mem_nil _)

theorem afterRightParen_raw (sq : Option (List Nat)) (ps : List Nat) (c : Nat) :
    ∀ t ∈ (afterRightParen sq ps c).1, t.raw = sq.getD [] := by
  intro t ht
  unfold afterRightParen at ht
  split at ht
  · rw [List.mem_singleton] at ht
    subst ht
    rfl
  · exact absurd ht (List.not_mem_nil _)

theorem escPound_value (sq : Option (List Nat)) (ps : List Nat) (c : Nat) :
    ∀ t ∈ (escPound sq ps c).1, -81 ≤ t.value ∧ t.value ≤ -1 := by
  intro t ht
  unfold escPound at ht
  split at ht
  · rename_i tv hl
    rw [List.mem_singleton] at ht
    subst ht
    have hall : ∀ x ∈ poundTable.map Prod.snd, -81 ≤ x ∧ x ≤ -1 := by decide
    exact hall tv (lookup_mem poundTable c tv hl)
  · exact absurd ht (List.not_mem_nil _)

theorem escPound_raw (sq : Option (List Nat)) (ps : List Nat) (c : Nat) :
    ∀ t ∈ (escPound sq ps c).1, t.raw = sq.getD [] := by
  intro t ht
  unfold escPound at ht
  split at ht
  · rw [List.mem_singleton] at ht
    subst ht
    rfl
  · exact absurd ht (List.not_mem_nil _)

theorem escapeDigit_value (sq : Option (List Nat)) (ps : List Nat) (c : Nat) :
    ∀ t ∈ (escapeDigit sq ps c).1, -81 ≤ t.value ∧ t.value ≤ -1 := by
  intro t ht
  unfold escapeDigit at ht
  split_ifs at ht
  all_goals
    first
      | exact absurd ht (List.not_mem_nil _)
      | (rw [List.mem_singleton] at ht
         subst ht
         exact ⟨by norm_num [DevStat, GetCursor], by norm_num [DevStat, GetCursor]⟩)

theorem escapeDigit_raw (sq : Option (List Nat)) (ps : List Nat) (c : Nat) :
    ∀ t ∈ (escapeDigit sq ps c).1, t.raw = sq.getD [] := by
  intro t ht
  unfold escapeDigit at ht
  split_ifs at ht
  all_goals
    first
      | exact absurd ht (List.not_mem_nil _)
      | (rw [List.mem_singleton] at ht
         subst ht
         rfl)

theorem step_value_range (st : LexState) (b : Nat) :
    ∀ t ∈ (step st b).1,
      (-81 ≤ t.value ∧ t.value ≤ -1) ∨ (0 ≤ t.value ∧ t.value ≤ 127) := by
  intro t ht
  obtain ⟨ph, sq, ps⟩ := st
  cases ph with
  | ground =>
      rw [step_eq_ground] at ht
      exact Or.inr (ground_value (b % 128) (Nat.mod_lt b (by omega)) t ht)
  | intermediateChar =>
      rw [step_eq_intermediate] at ht
      exact Or.inl (intermediateChar_value _ _ _ t ht)
  | afterLeftSquareBracket =>
      rw [step_eq_bracket] at ht
      exact Or.inl (afterLeftSquareBracket_value _ _ _ t ht)
  | afterLeftParen =>
      rw [step_eq_leftParen] at ht
      exact Or.inl (afterLeftParen_value _ _ _ t ht)
  | afterRightParen =>
      rw [step_eq_rightParen] at ht
      exact Or.inl (afterRightParen_value _ _ _ t ht)
  | escPound =>
      rw [step_eq_pound] at ht
      exact Or.inl (escPound_value _ _ _ t ht)
  | escapeDigit =>
      rw [step_eq_escDigit] at ht
      exact Or.inl (escapeDigit_value _ _ _ t ht)

theorem step_ground_raw (st : LexState) (b : Nat) (h : st.phase = .ground) :
    ∀ t ∈ (step st b).1, t.raw = [] ∧ t.params = [] := by
  intro t ht
  obtain ⟨ph, sq, ps⟩ := st
  subst h
  rw [step_eq_ground] at ht
  exact ground_raw (b % 128) t ht

theorem step_seq_raw (st : LexState) (b : Nat) (bs : List Nat)
    (hph : st.phase ≠ .ground) (hsq : st.seq = some bs) :
    ∀ t ∈ (step st b).1, t.raw = bs ++ [b % 128] := by
  intro t ht
  obtain ⟨ph, sq, ps⟩ := st
  simp only at hsq
  subst hsq
  have hgd : seqApp (some bs) (b % 128) = some (bs ++ [b % 128]) := rfl
  cases ph with
  | ground => exact absurd rfl hph
  | intermediateChar =>
      rw [step_eq_intermediate, hgd] at ht
      simpa using intermediateChar_raw _ _ _ t ht
  | afterLeftSquareBracket =>
      rw [step_eq_bracket, hgd] at ht
      simpa using afterLeftSquareBracket_raw _ _ _ t ht
  | afterLeftParen =>
      rw [step_eq_leftParen, hgd] at ht
      simpa using afterLeftParen_raw _ _ _ t ht
  | afterRightParen =>
      rw [step_eq_rightParen, hgd] at ht
      simpa using afterRightParen_raw _ _ _ t ht
  | escPound =>
      rw [step_eq_pound, hgd] at ht
      simpa using escPound_raw _ _ _ t ht
  | escapeDigit =>
      rw [step_eq_escDigit, hgd] at ht
      simpa using escapeDigit_raw _ _ _ t ht

theorem labelPairs_keys : ∀ p ∈ labelPairs, -81 ≤ p.1 ∧ p.1 ≤ -1 := by decide

theorem tokValString_unknown (v : TokVal) (h : v < -81 ∨ -1 < v) :
    tokValString v = "?" := by
  have hk : ∀ p ∈ labelPairs, p.1 ≠ v := by
    intro p hp heq
    have hb := labelPairs_keys p hp
    rw [heq] at hb
    obtain ⟨hb1, hb2⟩ := hb
    rcases h with h | h
    · exact absurd hb1 (not_le.mpr h)
    · exact absurd hb2 (not_le.mpr h)
  unfold tokValString
  rw [lookup_none_of_keys labelPairs v hk]
  rfl


theorem intermediateChar_unmapped (sq : Option (List Nat)) (ps : List Nat)
    (c : Nat) (h91 : c ≠ 91) (h40 : c ≠ 40) (h41 : c ≠ 41) (h35 : c ≠ 35)
    (hlk : intermediateTable.lookup c = none) (hdig : isDigitB c = false) :
    intermediateChar sq ps c = ([], ⟨.ground, sq, ps⟩) := by
  simp [intermediateChar, h91, h40, h41, h35, hlk, hdig]

theorem bracket_abort (sq : Option (List Nat)) (ps : List Nat) (c : Nat)
    (hnl : isLetterB c = false) (hnp : (isPrintB c && !isSpaceB c) = false) :
    afterLeftSquareBracket sq ps c = ([], ⟨.ground, sq, ps⟩) := by
  simp [afterLeftSquareBracket, hnl, hnp]

theorem processList_value_range (bs : List Nat) (st : LexState) :
    ∀ t ∈ (processList bs st).1,
      (-81 ≤ t.value ∧ t.value ≤ -1) ∨ (0 ≤ t.value ∧ t.value ≤ 127) := by
  induction bs generalizing st with
  | nil => intro t ht; exact absurd ht (List.not_mem_nil _)
  | cons b rest ih =>
      intro t ht
      simp only [processList, List.mem_append] at ht
      rcases ht with ht | ht
      · exact step_value_range st b t ht
      · exact ih _ t ht


theorem decBytes_lt (n : Nat) (h : n < 10) : decBytes n = [48 + n] := by
  rw [decBytes]
  simp [h]

theorem decBytes_ge (n : Nat) (h : ¬ n < 10) :
    decBytes n = decBytes (n / 10) ++ [48 + n % 10] := by
  rw [decBytes]
  simp [h]

theorem decBytes_eval_13 : decBytes 13 = [49, 51] := by
  rw [decBytes_ge 13 (by norm_num)]
  rw [show (13 : Nat) / 10 = 1 from by norm_num]
  rw [decBytes_lt 1 (by norm_num)]
  norm_num

theorem decBytes_eval_17 : decBytes 17 = [49, 55] := by
  rw [decBytes_ge 17 (by norm_num)]
  rw [show (17 : Nat) / 10 = 1 from by norm_num]
  rw [decBytes_lt 1 (by norm_num)]
  norm_num

theorem decBytes_eval_1 : decBytes 1 = [49] := decBytes_lt 1 (by norm_num)

theorem decBytes_eval_2 : decBytes 2 = [50] := decBytes_lt 2 (by norm_num)

theorem decBytes_eval_3 : decBytes 3 = [51] := decBytes_lt 3 (by norm_num)

theorem lex_cursorPos (v h : Nat) (hv : v ≤ 255) (hh : h ≤ 255) :
    lexList (27 :: 91 :: (decBytes v ++ 59 :: (decBytes h ++ [72]))) =
      [⟨CursorPos, [v, h], 27 :: 91 :: (decBytes v ++ 59 :: (decBytes h ++ [72]))⟩] ∧
    (processList (27 :: 91 :: (decBytes v ++ 59 :: (decBytes h ++ [72])))
        initState).2.phase = .ground := by
  have hg := lex_cursorPos_general v h [] hv hh
    (by intro d hd; exact absurd hd (List.not_mem_nil _))
    (by intro d hd; simp at hd; subst hd; decide)
  constructor
  · have h1 := hg.1
    unfold lexList
    simpa using h1
  · have h2 := hg.2
    simpa using h2


/-- A non-digit byte appended after digit-free-headed junk keeps the
head of the combined list non-digit. -/
theorem headND_append (junk : List Nat) (t : Nat) (hj : headND junk)
    (ht : isDigitB t = false) : headND (junk ++ [t]) := by
  intro d hd
  cases junk with
  | nil =>
      simp only [List.nil_append, List.head?_cons, Option.some.injEq] at hd
      subst hd
      exact ht
  | cons j rest =>
      simp only [List.cons_append, List.head?_cons, Option.some.injEq] at hd
      subst hd
      exact hj _ rfl

theorem interpTerm_B_pos (body : List Nat) (n : Nat)
    (hs : scanOne body = some n) :
    interpTerm 66 body = some (CursorDn, [n]) := by
  have hd : interpTerm 66 body = termUpB body := rfl
  rw [hd]
  simp [termUpB, hs]

theorem interpTerm_C_pos (body : List Nat) (n : Nat)
    (hs : scanOne body = some n) :
    interpTerm 67 body = some (CursorRt, [n]) := by
  have hd : interpTerm 67 body = termUpC body := rfl
  rw [hd]
  simp [termUpC, hs]

theorem interpTerm_D_pos (body : List Nat) (n : Nat)
    (hs : scanOne body = some n) :
    interpTerm 68 body = some (CursorLf, [n]) := by
  have hd : interpTerm 68 body = termUpD body := rfl
  rw [hd]
  simp [termUpD, hs]

theorem interpTerm_f_pos (body : List Nat) (v h : Nat) (h1 : body ≠ str "f")
    (h2 : body ≠ str ";f") (hs : scanTwo body = some (v, h)) :
    interpTerm 102 body = some (HvPos, [v, h]) := by
  have hd : interpTerm 102 body = termLowF body := rfl
  rw [hd]
  simp [termLowF, h1, h2, hs]

theorem lex_hvPos_general (v h : Nat) (junk : List Nat) (hv : v ≤ 255)
    (hh : h ≤ 255) (hjunk : ∀ d ∈ junk, accumByte d)
    (hnd : headND (junk ++ [102])) :
    (processList (27 :: 91 :: ((decBytes v ++ 59 :: (decBytes h ++ junk)) ++ [102]))
        initState).1 =
      [⟨HvPos, [v, h],
        27 :: 91 :: ((decBytes v ++ 59 :: (decBytes h ++ junk)) ++ [102])⟩] ∧
    (processList (27 :: 91 :: ((decBytes v ++ 59 :: (decBytes h ++ junk)) ++ [102]))
        initState).2.phase = .ground := by
  have hmid : ∀ d ∈ decBytes v ++ 59 :: (decBytes h ++ junk), accumByte d := by
    intro d hd
    simp only [List.mem_append, List.mem_cons] at hd
    rcases hd with hd | hd | hd | hd
    · have := decBytes_digits v d hd
      rw [isDigitB_iff] at this
      exact accumByte_of_digit d this.1 this.2
    · subst hd
      exact ⟨by decide, by decide, by decide⟩
    · have := decBytes_digits h d hd
      rw [isDigitB_iff] at this
      exact accumByte_of_digit d this.1 this.2
    · exact hjunk d hd
  have hls := lexSeq (decBytes v ++ 59 :: (decBytes h ++ junk)) 102 hmid
    (by decide) (by decide)
  have hbody : (decBytes v ++ 59 :: (decBytes h ++ junk)) ++ [102] =
      decBytes v ++ 59 :: (decBytes h ++ (junk ++ [102])) := by
    simp
  obtain ⟨d, r, hdr, hd1, hd2⟩ := decBytes_head v
  have hF : str "f" = [102] := by decide
  have hsemiF : str ";f" = [59, 102] := by decide
  have hne1 : (decBytes v ++ 59 :: (decBytes h ++ junk)) ++ [102] ≠ str "f" := by
    rw [hF, hdr]
    intro heq
    simp at heq
  have hne2 : (decBytes v ++ 59 :: (decBytes h ++ junk)) ++ [102] ≠ str ";f" := by
    rw [hsemiF, hdr]
    intro heq
    simp at heq
    omega
  have hscan : scanTwo ((decBytes v ++ 59 :: (decBytes h ++ junk)) ++ [102]) =
      some (v, h) := by
    rw [hbody]
    exact scanTwo_decBytes v h (junk ++ [102]) hv hh hnd
  have hint := interpTerm_f_pos _ _ _ hne1 hne2 hscan
  rcases hls with ⟨htok, hph⟩
  unfold seqOut at htok
  rw [hint] at htok
  exact ⟨htok, hph⟩

theorem lex_setWin_general (v h : Nat) (junk : List Nat) (hv : v ≤ 255)
    (hh : h ≤ 255) (hjunk : ∀ d ∈ junk, accumByte d)
    (hnd : headND (junk ++ [114])) :
    (processList (27 :: 91 :: ((decBytes v ++ 59 :: (decBytes h ++ junk)) ++ [114]))
        initState).1 =
      [⟨SetWin, [v, h],
        27 :: 91 :: ((decBytes v ++ 59 :: (decBytes h ++ junk)) ++ [114])⟩] ∧
    (processList (27 :: 91 :: ((decBytes v ++ 59 :: (decBytes h ++ junk)) ++ [114]))
        initState).2.phase = .ground := by
  have hmid : ∀ d ∈ decBytes v ++ 59 :: (decBytes h ++ junk), accumByte d := by
    intro d hd
    simp only [List.mem_append, List.mem_cons] at hd
    rcases hd with hd | hd | hd | hd
    · have := decBytes_digits v d hd
      rw [isDigitB_iff] at this
      exact accumByte_of_digit d this.1 this.2
    · subst hd
      exact ⟨by decide, by decide, by decide⟩
    · have := decBytes_digits h d hd
      rw [isDigitB_iff] at this
      exact accumByte_of_digit d this.1 this.2
    · exact hjunk d hd
  have hls := lexSeq (decBytes v ++ 59 :: (decBytes h ++ junk)) 114 hmid
    (by decide) (by decide)
  have hbody : (decBytes v ++ 59 :: (decBytes h ++ junk)) ++ [114] =
      decBytes v ++ 59 :: (decBytes h ++ (junk ++ [114])) := by
    simp
  have hscan : scanTwo ((decBytes v ++ 59 :: (decBytes h ++ junk)) ++ [114]) =
      some (v, h) := by
    rw [hbody]
    exact scanTwo_decBytes v h (junk ++ [114]) hv hh hnd
  have hint := interpTerm_r_pos _ _ _ hscan
  rcases hls with ⟨htok, hph⟩
  unfold seqOut at htok
  rw [hint] at htok
  exact ⟨htok, hph⟩

theorem lex_scanOne_general (n : Nat) (junk : List Nat) (t : Nat) (tag : TokVal)
    (hn : n ≤ 255) (hj : ∀ d ∈ junk, accumByte d) (hnd : headND (junk ++ [t]))
    (hlt : t < 128) (hl : isLetterB t = true)
    (hterm : ∀ body v', scanOne body = some v' → interpTerm t body = some (tag, [v'])) :
    (processList (27 :: 91 :: ((decBytes n ++ junk) ++ [t])) initState).1 =
      [⟨tag, [n], 27 :: 91 :: ((decBytes n ++ junk) ++ [t])⟩] ∧
    (processList (27 :: 91 :: ((decBytes n ++ junk) ++ [t])) initState).2.phase =
      .ground := by
  have hmid : ∀ d ∈ decBytes n ++ junk, accumByte d := by
    intro d hd
    rw [List.mem_append] at hd
    rcases hd with hd | hd
    · have := decBytes_digits n d hd
      rw [isDigitB_iff] at this
      exact accumByte_of_digit d this.1 this.2
    · exact hj d hd
  have hls := lexSeq (decBytes n ++ junk) t hmid hlt hl
  have hbody : (decBytes n ++ junk) ++ [t] = decBytes n ++ (junk ++ [t]) := by
    simp
  have hscan : scanOne ((decBytes n ++ junk) ++ [t]) = some n := by
    rw [hbody]
    exact scanOne_decBytes n (junk ++ [t]) hn hnd
  have hint := hterm _ n hscan
  rcases hls with ⟨htok, hph⟩
  unfold seqOut at htok
  rw [hint] at htok
  exact ⟨htok, hph⟩

/-- C1 (amended): for every pair of decimal numbers v and h in the byte
range 0-255 (the width of the scanned Go byte variables), feeding the
bytes ESC [ v ; h H emits exactly one CursorPos token with params
[v, h], while ESC [ H and ESC [ ; H emit exactly one CursorHome token
with no params; in every case the machine returns to the Ground
state. -/
theorem vt100_C1 (v h : Nat) (hv : v ≤ 255) (hh : h ≤ 255) :
    (lexList (27 :: 91 :: (decBytes v ++ 59 :: (decBytes h ++ [72]))) =
      [⟨CursorPos, [v, h], 27 :: 91 :: (decBytes v ++ 59 :: (decBytes h ++ [72]))⟩]) ∧
    ((processList (27 :: 91 :: (decBytes v ++ 59 :: (decBytes h ++ [72])))
        initState).2.phase = .ground) ∧
    (lexList [27, 91, 72] = [⟨CursorHome, [], [27, 91, 72]⟩]) ∧
    ((processList [27, 91, 72] initState).2.phase = .ground) ∧
    (lexList [27, 91, 59, 72] = [⟨CursorHome, [], [27, 91, 59, 72]⟩]) ∧
    ((processList [27, 91, 59, 72] initState).2.phase = .ground) := by
  have hc := lex_cursorPos v h hv hh
  exact ⟨hc.1, hc.2, by decide, by decide, by decide, by decide⟩

/-- C1 counterexample: the claim quantifies over every pair of decimal
numbers, but the coordinates are scanned into byte-sized variables, so
already v = 256 fails: ESC [ 256 ; 1 H emits no token at all. -/
theorem vt100_C1_counterexample :
    str "\x1b[256;1H" = [27, 91, 50, 53, 54, 59, 49, 72] ∧
    lexList (str "\x1b[256;1H") = [] := by decide

/-- C1 witness at v = 13, h = 17. -/
theorem vt100_C1_witness :
    lexList [27, 91, 49, 51, 59, 49, 55, 72] =
      [⟨CursorPos, [13, 17], [27, 91, 49, 51, 59, 49, 55, 72]⟩] := by
  have h := (vt100_C1 13 17 (by norm_num) (by norm_num)).1
  rw [decBytes_eval_13, decBytes_eval_17] at h
  simpa using h

/-- C2: in the Ground state the escape introducer 0x1B emits nothing,
starts a fresh sequence buffer and moves to AfterEscape
(intermediateChar); any other byte emits exactly one token whose value
is the raw (masked) byte, staying in Ground; hence a run of n plain
bytes yields exactly n tokens, one per byte. -/
theorem vt100_C2 :
    (∀ st b, st.phase = .ground → b % 128 = 27 →
       step st b = ([], ⟨.intermediateChar, some [27], []⟩)) ∧
    (∀ st b, st.phase = .ground → b % 128 ≠ 27 →
       step st b = ([⟨((b % 128 : Nat) : Int), [], []⟩], ⟨.ground, none, []⟩)) ∧
    (∀ bs st, st.phase = .ground → (∀ b ∈ bs, b % 128 ≠ 27) →
       (processList bs st).1.length = bs.length ∧
       (processList bs st).1 = bs.map (fun b => ⟨((b % 128 : Nat) : Int), [], []⟩)) := by
  refine ⟨?_, ?_, ?_⟩
  · intro st b hst h27
    rw [step_of_ground st b hst]
    have : step initState b = ground (b % 128) := rfl
    rw [this]
    simp [ground, h27]
  · intro st b hst h27
    rw [step_of_ground st b hst]
    have : step initState b = ground (b % 128) := rfl
    rw [this]
    simp [ground, h27]
  · intro bs st hst hall
    have hp := plainRun bs st hall hst
    exact ⟨by rw [hp.1]; simp, hp.1⟩

/-- C2 witness: the escape introducer from Ground, a plain byte from
Ground, and a run of three plain bytes. -/
theorem vt100_C2_witness :
    step initState 27 = ([], ⟨.intermediateChar, some [27], []⟩) ∧
    step initState 65 = ([⟨((65 % 128 : Nat) : Int), [], []⟩], ⟨.ground, none, []⟩) ∧
    (processList [65, 66, 67] initState).1.length = 3 := by
  refine ⟨vt100_C2.1 initState 27 rfl (by norm_num),
    vt100_C2.2.1 initState 65 rfl (by norm_num), ?_⟩
  have h := (vt100_C2.2.2 [65, 66, 67] initState rfl (by decide)).1
  simpa using h

/-- C3: malformed escape input emits zero tokens and lands back in
Ground, and a known-good sequence fed right after is still recognized;
the three quantified parts cover a bracket sequence whose body and
terminator match no grammar row (this includes unrecognized terminator
letters), an unmapped single-byte follow-up to the introducer, and a
non-printable or whitespace byte inside a bracket sequence.  There is
no error channel: processing is a total function into token lists and
a successor state. -/
theorem vt100_C3 :
    (∀ mid t, (∀ d ∈ mid, accumByte d) → t < 128 → isLetterB t = true →
       interpTerm t (mid ++ [t]) = none →
       lexList (27 :: 91 :: (mid ++ [t])) = [] ∧
       (processList (27 :: 91 :: (mid ++ [t])) initState).2.phase = .ground ∧
       lexList ((27 :: 91 :: (mid ++ [t])) ++ [27, 91, 72]) =
         [⟨CursorHome, [], [27, 91, 72]⟩]) ∧
    (∀ c, c < 128 → c ∉ [91, 40, 41, 35] → intermediateTable.lookup c = none →
       isDigitB c = false →
       lexList [27, c] = [] ∧
       (processList [27, c] initState).2.phase = .ground ∧
       lexList ([27, c] ++ [27, 91, 72]) = [⟨CursorHome, [], [27, 91, 72]⟩]) ∧
    (∀ mid c, (∀ d ∈ mid, accumByte d) → c < 128 → isLetterB c = false →
       (isPrintB c && !isSpaceB c) = false →
       lexList (27 :: 91 :: (mid ++ [c])) = [] ∧
       (processList (27 :: 91 :: (mid ++ [c])) initState).2.phase = .ground) := by
  refine ⟨?_, ?_, ?_⟩
  · intro mid t hmid hlt hl hnone
    have hs := lexSeq mid t hmid hlt hl
    have hout : seqOut mid t = [] := by
      unfold seqOut
      rw [hnone]
    have htok : lexList (27 :: 91 :: (mid ++ [t])) = [] := by
      unfold lexList
      rw [hs.1, hout]
    refine ⟨htok, hs.2, ?_⟩
    show (processList ((27 :: 91 :: (mid ++ [t])) ++ [27, 91, 72]) initState).1 = _
    rw [processList_append]
    dsimp only
    rw [hs.1, hout, List.nil_append]
    rw [processList_tokens_of_ground [27, 91, 72] _ hs.2]
    decide
  · intro c hlt hmem hlk hdig
    simp only [List.mem_cons, List.not_mem_nil, or_false] at hmem
    push_neg at hmem
    obtain ⟨h91, h40, h41, h35⟩ := hmem
    have h1 : step initState 27 = ([], ⟨.intermediateChar, some [27], []⟩) := by decide
    have h2 : step ⟨.intermediateChar, some [27], []⟩ c =
        ([], ⟨.ground, some [27, c], []⟩) := by
      rw [step_eq_intermediate, Nat.mod_eq_of_lt hlt]
      have hsq : seqApp (some [27]) c = some [27, c] := rfl
      rw [hsq]
      exact intermediateChar_unmapped _ _ c h91 h40 h41 h35 hlk hdig
    have htoks : processList [27, c] initState = ([], ⟨.ground, some [27, c], []⟩) := by
      simp [processList, h1, h2]
    refine ⟨?_, ?_, ?_⟩
    · show (processList [27, c] initState).1 = _
      rw [htoks]
    · rw [htoks]
    · show (processList ([27, c] ++ [27, 91, 72]) initState).1 = _
      rw [processList_append, htoks]
      dsimp only
      rw [List.nil_append]
      rw [processList_tokens_of_ground [27, 91, 72] _ rfl]
      decide
  · intro mid c hmid hlt hnl hnp
    have h1 : step initState 27 = ([], ⟨.intermediateChar, some [27], []⟩) := by decide
    have h2 : step ⟨.intermediateChar, some [27], []⟩ 91 =
        ([], ⟨.afterLeftSquareBracket, some [27, 91], []⟩) := by decide
    have h3' : processList mid ⟨.afterLeftSquareBracket, some [27, 91], []⟩ =
        ([], ⟨.afterLeftSquareBracket, some (27 :: 91 :: mid), []⟩) := by
      simpa using accum_run mid [27, 91] [] hmid
    have h4 : step ⟨.afterLeftSquareBracket, some (27 :: 91 :: mid), []⟩ c =
        ([], ⟨.ground, some ((27 :: 91 :: mid) ++ [c]), []⟩) := by
      rw [step_eq_bracket, Nat.mod_eq_of_lt hlt]
      have hsq : seqApp (some (27 :: 91 :: mid)) c =
          some ((27 :: 91 :: mid) ++ [c]) := rfl
      rw [hsq]
      exact bracket_abort _ _ c hnl hnp
    constructor
    · unfold lexList
      simp [processList, h1, h2, processList_append, h3', h4]
    · simp [processList, h1, h2, processList_append, h3', h4]

/-- C3 witness: the unknown-terminator example ESC [ 9 9 z emits
nothing, and a CursorHome sequence fed right after is recognized. -/
theorem vt100_C3_witness :
    lexList [27, 91, 57, 57, 122] = [] ∧
    lexList [27, 91, 57, 57, 122, 27, 91, 72] = [⟨CursorHome, [], [27, 91, 72]⟩] := by
  have h := (vt100_C3.1) [57, 57] 122 (by decide) (by decide) (by decide) (by decide)
  refine ⟨by simpa using h.1, by simpa using h.2.2⟩

/-- C4 (amended): the terminator-h private modes cover the digits
1, 3, 4, 5, 6, 7, 8, 9 with tokens SetAppl, SetCol, SetSmooth,
SetRevScrn, SetOrgRel, SetWrap, SetRep, SetInter (not a consecutive
run of catalog values), while ESC [ ? 2 h matches no case and emits no
token, returning to Ground. -/
theorem vt100_C4 :
    lexList [27, 91, 63, 49, 104] = [⟨SetAppl, [], [27, 91, 63, 49, 104]⟩] ∧
    lexList [27, 91, 63, 50, 104] = [] ∧
    (processList [27, 91, 63, 50, 104] initState).2.phase = .ground ∧
    lexList [27, 91, 63, 51, 104] = [⟨SetCol, [], [27, 91, 63, 51, 104]⟩] ∧
    lexList [27, 91, 63, 52, 104] = [⟨SetSmooth, [], [27, 91, 63, 52, 104]⟩] ∧
    lexList [27, 91, 63, 53, 104] = [⟨SetRevScrn, [], [27, 91, 63, 53, 104]⟩] ∧
    lexList [27, 91, 63, 54, 104] = [⟨SetOrgRel, [], [27, 91, 63, 54, 104]⟩] ∧
    lexList [27, 91, 63, 55, 104] = [⟨SetWrap, [], [27, 91, 63, 55, 104]⟩] ∧
    lexList [27, 91, 63, 56, 104] = [⟨SetRep, [], [27, 91, 63, 56, 104]⟩] ∧
    lexList [27, 91, 63, 57, 104] = [⟨SetInter, [], [27, 91, 63, 57, 104]⟩] := by
  decide

/-- C4 counterexample: the claim asserts that every digit 1 through 9
after ? with terminator h emits exactly one token, but ESC [ ? 2 h
(bytes 27 91 63 50 104) emits none: the h switch has no ?2h case. -/
theorem vt100_C4_counterexample :
    str "\x1b[?2h" = [27, 91, 63, 50, 104] ∧
    lexList [27, 91, 63, 50, 104] = [] := by decide

/-- C5 (amended): numeric parameters are decoded as non-negative
integers in the byte range 0-255 (sufficient for two-digit terminal
coordinates but not for 999): for all v, h, n up to 255 the r, A and H
sequences decode their parameters; a body that fails to scan emits no
token for that sequence while the stream continues from Ground, so a
following good sequence is recognized. -/
theorem vt100_C5 (v h n : Nat) (hv : v ≤ 255) (hh : h ≤ 255) (hn : n ≤ 255) :
    (lexList (27 :: 91 :: (decBytes v ++ 59 :: (decBytes h ++ [72]))) =
      [⟨CursorPos, [v, h], 27 :: 91 :: (decBytes v ++ 59 :: (decBytes h ++ [72]))⟩]) ∧
    (lexList (27 :: 91 :: ((decBytes v ++ 59 :: decBytes h) ++ [114])) =
      [⟨SetWin, [v, h], 27 :: 91 :: ((decBytes v ++ 59 :: decBytes h) ++ [114])⟩]) ∧
    (lexList (27 :: 91 :: (decBytes n ++ [65])) =
      [⟨CursorUp, [n], 27 :: 91 :: (decBytes n ++ [65])⟩]) ∧
    (lexList ([27, 91, 50, 53, 54, 59, 49, 72] ++ [27, 91, 72]) =
      [⟨CursorHome, [], [27, 91, 72]⟩]) := by
  refine ⟨(lex_cursorPos v h hv hh).1, (lex_setWin v h hv hh).1,
    (lex_cursorUp n hn).1, by decide⟩

/-- C5 counterexample: the claim proposes a range sufficient for 999,
but ESC [ 999 ; 1 H emits no token: the parameters are scanned into
byte-sized variables and 999 overflows. -/
theorem vt100_C5_counterexample :
    str "\x1b[999;1H" = [27, 91, 57, 57, 57, 59, 49, 72] ∧
    lexList (str "\x1b[999;1H") = [] := by decide

/-- C5 witness at v = 13, h = 17 for the r terminator. -/
theorem vt100_C5_witness :
    lexList [27, 91, 49, 51, 59, 49, 55, 114] =
      [⟨SetWin, [13, 17], [27, 91, 49, 51, 59, 49, 55, 114]⟩] := by
  have h := (vt100_C5 13 17 3 (by norm_num) (by norm_num) (by norm_num)).2.1
  rw [decBytes_eval_13, decBytes_eval_17] at h
  simpa using h

/-- C6 (amended): a token emitted from any non-Ground state carries as
its raw field the active sequence buffer extended with the current
masked byte - for a full recognized sequence that is the whole masked
byte run from the introducer through the final byte, as the concrete
CursorPos run shows - but a plain character emitted from Ground
carries an empty raw field (ground resets l.seq to nil before
sending), not the single byte itself. -/
theorem vt100_C6 :
    (∀ st b, st.phase = .ground → ∀ t ∈ (step st b).1, t.raw = []) ∧
    (∀ st b bs, st.phase ≠ .ground → st.seq = some bs →
       ∀ t ∈ (step st b).1, t.raw = bs ++ [b % 128]) ∧
    (lexList [27, 91, 49, 51, 59, 49, 55, 72] =
      [⟨CursorPos, [13, 17], [27, 91, 49, 51, 59, 49, 55, 72]⟩]) ∧
    (lexList [65] = [⟨65, [], []⟩]) := by
  refine ⟨?_, ?_, by decide, by decide⟩
  · intro st b hst t ht
    exact (step_ground_raw st b hst t ht).1
  · intro st b bs hph hsq
    exact step_seq_raw st b bs hph hsq

/-- C6 counterexample: the claim says the raw field of a plain
character token is that single byte, but the token emitted for input
byte 65 carries an empty raw sequence. -/
theorem vt100_C6_counterexample :
    lexList [65] = [⟨65, [], []⟩] ∧ ([] : List Nat) ≠ [65] := by decide

/-- C6 witness: the Ground-state part applied to the token emitted for
byte 65 from the initial state. -/
theorem vt100_C6_witness : (⟨65, [], []⟩ : Token).raw = [] :=
  (vt100_C6.1) initState 65 rfl ⟨65, [], []⟩ (by decide)

/-- C7: the name lookup is total: each of the 81 named discriminators
maps to its canonical identifier string, and any value outside the
named range - in particular every raw character value 0-127 - renders
as the fallback marker. -/
theorem vt100_C7 :
    (∀ v : TokVal, v < -81 ∨ -1 < v → tokValString v = "?") ∧
    (∀ c : Nat, c ≤ 127 → tokValString ((c : Nat) : Int) = "?") ∧
    namedPairs.length = 81 ∧
    (∀ p ∈ namedPairs, tokValString p.1 = p.2) := by
  refine ⟨tokValString_unknown, ?_, by decide, by decide⟩
  intro c hc
  exact tokValString_unknown _
    (Or.inr (lt_of_lt_of_le (by norm_num) (Int.natCast_nonneg c)))

/-- C7 witness: the raw character value 65 renders as the fallback. -/
theorem vt100_C7_witness : tokValString 65 = "?" :=
  vt100_C7.1 65 (Or.inr (by decide))

/-- C8: every byte is masked to 7 bits before interpretation: stepping
with b and with b mod 128 is identical in every state, 0x9B acts as
the escape introducer, and a plain byte at or above 0x80 emits the
token for b minus 128. -/
theorem vt100_C8 :
    (∀ st b, step st b = step st (b % 128)) ∧
    (step initState 155 = ([], ⟨.intermediateChar, some [27], []⟩)) ∧
    (∀ b, 128 ≤ b → b ≤ 255 → b % 128 ≠ 27 →
       step initState b = ([⟨((b - 128 : Nat) : Int), [], []⟩], initState)) := by
  refine ⟨?_, by decide, ?_⟩
  · intro st b
    have hm : b % 128 % 128 = b % 128 := Nat.mod_mod_of_dvd b dvd_rfl
    obtain ⟨ph, sq, ps⟩ := st
    cases ph <;> simp [step, hm]
  · intro b hb1 hb2 h27
    have hstep : step initState b = ground (b % 128) := rfl
    have hbm : b % 128 = b - 128 := by omega
    rw [hstep, hbm]
    unfold ground
    rw [if_neg (by rw [← hbm]; exact h27)]
    rfl

/-- C8 witness: byte 193 (0x80 + 65) from the initial state emits the
token for 65. -/
theorem vt100_C8_witness :
    step initState 193 = ([⟨((193 - 128 : Nat) : Int), [], []⟩], initState) :=
  vt100_C8.2.2 193 (by norm_num) (by norm_num) (by norm_num)

/-- C9: for all parameterized terminators (r, A, B, C, D, H, f) the
body is matched by prefix: once the leading digits (and separator)
scan as the expected integers, any further digit-free printable junk
before the terminator is ignored and the token is still emitted with
the decoded parameters - concretely ESC [ 1 ; 2 ; 3 H gives
CursorPos [1, 2]. -/
theorem vt100_C9 (v h n : Nat) (junk : List Nat) (hv : v ≤ 255) (hh : h ≤ 255)
    (hn : n ≤ 255) (hj : ∀ d ∈ junk, accumByte d) (hjnd : headND junk) :
    (lexList (27 :: 91 :: ((decBytes v ++ 59 :: (decBytes h ++ junk)) ++ [72])) =
      [⟨CursorPos, [v, h],
        27 :: 91 :: ((decBytes v ++ 59 :: (decBytes h ++ junk)) ++ [72])⟩]) ∧
    (lexList (27 :: 91 :: ((decBytes v ++ 59 :: (decBytes h ++ junk)) ++ [102])) =
      [⟨HvPos, [v, h],
        27 :: 91 :: ((decBytes v ++ 59 :: (decBytes h ++ junk)) ++ [102])⟩]) ∧
    (lexList (27 :: 91 :: ((decBytes v ++ 59 :: (decBytes h ++ junk)) ++ [114])) =
      [⟨SetWin, [v, h],
        27 :: 91 :: ((decBytes v ++ 59 :: (decBytes h ++ junk)) ++ [114])⟩]) ∧
    (lexList (27 :: 91 :: ((decBytes n ++ junk) ++ [65])) =
      [⟨CursorUp, [n], 27 :: 91 :: ((decBytes n ++ junk) ++ [65])⟩]) ∧
    (lexList (27 :: 91 :: ((decBytes n ++ junk) ++ [66])) =
      [⟨CursorDn, [n], 27 :: 91 :: ((decBytes n ++ junk) ++ [66])⟩]) ∧
    (lexList (27 :: 91 :: ((decBytes n ++ junk) ++ [67])) =
      [⟨CursorRt, [n], 27 :: 91 :: ((decBytes n ++ junk) ++ [67])⟩]) ∧
    (lexList (27 :: 91 :: ((decBytes n ++ junk) ++ [68])) =
      [⟨CursorLf, [n], 27 :: 91 :: ((decBytes n ++ junk) ++ [68])⟩]) ∧
    (lexList [27, 91, 49, 59, 50, 59, 51, 72] =
      [⟨CursorPos, [1, 2], [27, 91, 49, 59, 50, 59, 51, 72]⟩]) := by
  refine ⟨(lex_cursorPos_general v h junk hv hh hj
      (headND_append junk 72 hjnd (by decide))).1,
    (lex_hvPos_general v h junk hv hh hj
      (headND_append junk 102 hjnd (by decide))).1,
    (lex_setWin_general v h junk hv hh hj
      (headND_append junk 114 hjnd (by decide))).1,
    (lex_scanOne_general n junk 65 CursorUp hn hj
      (headND_append junk 65 hjnd (by decide)) (by decide) (by decide)
      interpTerm_A_pos).1,
    (lex_scanOne_general n junk 66 CursorDn hn hj
      (headND_append junk 66 hjnd (by decide)) (by decide) (by decide)
      interpTerm_B_pos).1,
    (lex_scanOne_general n junk 67 CursorRt hn hj
      (headND_append junk 67 hjnd (by decide)) (by decide) (by decide)
      interpTerm_C_pos).1,
    (lex_scanOne_general n junk 68 CursorLf hn hj
      (headND_append junk 68 hjnd (by decide)) (by decide) (by decide)
      interpTerm_D_pos).1,
    by decide⟩

/-- C9 witness: v = 1, h = 2, n = 7 with junk ; 3 before the
terminator, evaluated concretely for the H and r terminators. -/
theorem vt100_C9_witness :
    lexList [27, 91, 49, 59, 50, 59, 51, 72] =
      [⟨CursorPos, [1, 2], [27, 91, 49, 59, 50, 59, 51, 72]⟩] ∧
    lexList [27, 91, 49, 59, 50, 59, 51, 114] =
      [⟨SetWin, [1, 2], [27, 91, 49, 59, 50, 59, 51, 114]⟩] := by
  have h := vt100_C9 1 2 7 [59, 51] (by norm_num) (by norm_num) (by norm_num)
    (by decide) (by intro d hd; simp at hd; subst hd; decide)
  constructor
  · have h1 := h.1
    rw [decBytes_eval_1, decBytes_eval_2] at h1
    simpa using h1
  · have h2 := h.2.2.1
    rw [decBytes_eval_1, decBytes_eval_2] at h2
    simpa using h2

/-- C10: every emitted token's value is either in the named range -81
to -1 (the 81 catalog constants, all strictly negative) or a raw byte
value 0 to 127, and the two ranges are disjoint. -/
theorem vt100_C10 :
    (∀ bs st t, t ∈ (processList bs st).1 →
       (-81 ≤ t.value ∧ t.value ≤ -1) ∨ (0 ≤ t.value ∧ t.value ≤ 127)) ∧
    (∀ v : TokVal, ¬((-81 ≤ v ∧ v ≤ -1) ∧ (0 ≤ v ∧ v ≤ 127))) := by
  constructor
  · intro bs st t ht
    exact processList_value_range bs st t ht
  · rintro v ⟨⟨_, h1⟩, h2, _⟩
    exact absurd (le_trans h2 h1) (by decide)

/-- C10 witness: the token emitted for plain byte 65 lies in the raw
byte range. -/
theorem vt100_C10_witness :
    (-81 ≤ (⟨65, [], []⟩ : Token).value ∧ (⟨65, [], []⟩ : Token).value ≤ -1) ∨
    (0 ≤ (⟨65, [], []⟩ : Token).value ∧ (⟨65, [], []⟩ : Token).value ≤ 127) :=
  vt100_C10.1 [65] initState ⟨65, [], []⟩ (by decide)

end VT100
